import Mathlib

/-!
Verification of the `webservice` library (Go) against its specification.

The Lean definitions below are a shallow embedding of the code in
`webservice.go` and `serializers.go`:

* `coerce` embeds the `coerce` function together with the behaviour of the
  `strconv` routines it calls (`ParseInt`, `ParseUint`, `ParseFloat`).
* `Piece`, `scanTemplate`, `matchPieces` embed the path-template compiler
  (`pathTransform` replacement in `Route.path`) and the anchored regular
  expression matching performed by `Route.match` via `FindStringSubmatch`.
* `RouteM`, `matchRoute`, `functionDispatcher`, `serveHTTP` embed `Route`,
  `Route.match`, `FunctionDispatcher` and `Service.ServeHTTP`.
* `Envelope`, `respond`, `encodeResponse` embed `Response`, `Context.Respond`
  and `SerializerMap.EncodeResponse`/`Encode`.
-/

set_option maxRecDepth 100000

deriving instance DecidableEq for Except

namespace Webservice

/-! ## Embedding of `strconv` integer parsing (base 10, as called by `coerce`) -/

/-- Numeric value of a decimal digit character. -/
def digitVal (c : Char) : Nat := c.toNat - '0'.toNat

/-- Value of a list of decimal digit characters (most significant first). -/
def natOfDigits (cs : List Char) : Nat :=
  cs.foldl (fun acc c => acc * 10 + digitVal c) 0

/-- Parse a non-empty all-digit string into a natural number.
Embeds the digit loop of `strconv.ParseUint` for base 10. -/
def parseDigits (cs : List Char) : Option Nat :=
  if cs ≠ [] ∧ cs.all Char.isDigit then some (natOfDigits cs) else none

/-- Signed range test used by `strconv.ParseInt` for a given bit size:
the value must lie in `[-2^(bits-1), 2^(bits-1) - 1]`. -/
def intRangeOk (v : Int) (bits : Nat) : Bool :=
  decide (-((2 : Int) ^ (bits - 1)) ≤ v) && decide (v ≤ (2 : Int) ^ (bits - 1) - 1)

/-- Embeds `strconv.ParseInt(s, 10, bits)`: optional sign, decimal digits,
range check against the signed `bits`-bit range.  The returned value on the
error path is irrelevant to the program (it only tests `err != nil`), so
errors are collapsed to `Except.error ()`. -/
def parseInt (s : String) (bits : Nat) : Except Unit Int :=
  match s.toList with
  | [] => .error ()
  | c :: rest =>
    let neg := c = '-'
    let ds := if c = '-' || c = '+' then rest else c :: rest
    match parseDigits ds with
    | none => .error ()
    | some n =>
      let v : Int := if neg then -(n : Int) else (n : Int)
      if intRangeOk v bits then .ok v else .error ()

/-- Embeds `strconv.ParseUint(s, 10, bits)`: decimal digits only (no sign is
accepted), range check against `[0, 2^bits - 1]`. -/
def parseUint (s : String) (bits : Nat) : Except Unit Nat :=
  match parseDigits s.toList with
  | none => .error ()
  | some n => if n ≤ 2 ^ bits - 1 then .ok n else .error ()

/-! ## Embedding of `strconv.ParseFloat` (decimal forms) -/

/-- Result value of a float parse: a finite decimal `m × 10^e` held exactly
as mantissa and exponent, an infinity (the flag is the sign), or NaN.  IEEE
rounding of the decimal value to the nearest float is not modelled; only
acceptance and the range check are, which is all `coerce`'s callers observe
(they only test `err != nil`). -/
inductive FloatVal where
  | finite : Int → Int → FloatVal
  | inf : Bool → FloatVal
  | nan : FloatVal
deriving DecidableEq, Repr

/-- Lower-case a character list (for the `inf`/`nan` special forms). -/
def toLowerList (cs : List Char) : List Char := cs.map Char.toLower

/-- Split a mantissa-and-exponent list at the first `e`/`E`, returning the
mantissa part and, when an `e`/`E` is present, the exponent part. -/
def splitMantissaExp (cs : List Char) : List Char × Option (List Char) :=
  let m := cs.takeWhile (fun c => c ≠ 'e' && c ≠ 'E')
  match cs.dropWhile (fun c => c ≠ 'e' && c ≠ 'E') with
  | [] => (m, none)
  | _ :: rest => (m, some rest)

/-- Parse a decimal mantissa: digits with at most one point, at least one
digit overall.  Returns the concatenated digit value together with the
number of fractional digits, so the exact value is `v × 10^(-fracLen)`. -/
def parseMantissa (cs : List Char) : Option (Nat × Nat) :=
  let ip := cs.takeWhile Char.isDigit
  match cs.dropWhile Char.isDigit with
  | [] => if ip = [] then none else some (natOfDigits ip, 0)
  | '.' :: fp =>
    if fp.all Char.isDigit ∧ (ip ≠ [] ∨ fp ≠ []) then
      some (natOfDigits (ip ++ fp), fp.length)
    else none
  | _ => none

/-- Parse an exponent part (after the `e`/`E`): optional sign, digits. -/
def parseExpPart (cs : List Char) : Option Int :=
  match cs with
  | [] => none
  | c :: rest =>
    let neg := c = '-'
    let ds := if c = '-' || c = '+' then rest else c :: rest
    match parseDigits ds with
    | none => none
    | some n => some (if neg then -(n : Int) else (n : Int))

/-- Syntax of the decimal forms accepted by `strconv.ParseFloat`: optional
sign; `inf`/`infinity` (case-insensitive, sign allowed); `nan`
(case-insensitive, no sign); otherwise decimal mantissa with optional
`e`/`E` exponent.  Hexadecimal floats and digit-separating underscores are
not exercised by this program and are outside the model. -/
def parseFloatVal (cs : List Char) : Option FloatVal :=
  match cs with
  | [] => none
  | c :: rest =>
    let neg := c = '-'
    let body := if c = '-' || c = '+' then rest else c :: rest
    if toLowerList body = "inf".toList ∨ toLowerList body = "infinity".toList then
      some (.inf neg)
    else if toLowerList (c :: rest) = "nan".toList then
      some .nan
    else
      let me := splitMantissaExp body
      match parseMantissa me.1 with
      | none => none
      | some mf =>
        let m : Int := if neg then -(mf.1 : Int) else (mf.1 : Int)
        match me.2 with
        | none => some (.finite m (-(mf.2 : Int)))
        | some ecs =>
          match parseExpPart ecs with
          | none => none
          | some ex => some (.finite m (ex - (mf.2 : Int)))

/-- Range check of `strconv.ParseFloat`: a finite decimal value whose
magnitude rounds (to nearest, ties to even) beyond the largest finite float
of the requested width yields `ErrRange`.  The exact rounding thresholds are
`2^128 - 2^103` for 32 bits and `2^1024 - 2^970` for 64 bits. -/
def floatRangeOk (v : FloatVal) (bits : Nat) : Bool :=
  match v with
  | .finite m e =>
    let t : Nat := if bits = 32 then 2 ^ 128 - 2 ^ 103 else 2 ^ 1024 - 2 ^ 970
    if 0 ≤ e then decide (m.natAbs * 10 ^ e.toNat < t)
    else decide (m.natAbs < t * 10 ^ (-e).toNat)
  | _ => true

/-- Embeds `strconv.ParseFloat(s, bits)` as observed by `coerce`: syntactic
acceptance plus the overflow range check. -/
def parseFloat (s : String) (bits : Nat) : Except Unit FloatVal :=
  match parseFloatVal s.toList with
  | none => .error ()
  | some v => if floatRangeOk v bits then .ok v else .error ()

/-! ## Embedding of `coerce` (webservice.go lines 302-341) -/

/-- The reflected kinds that `coerce` switches on.  `other` stands for every
kind outside the listed cases (the `default` branch). -/
inductive GoKind where
  | int | int8 | uint8 | int16 | uint16 | int32 | uint32 | int64 | uint64
  | float32 | float64 | str | other
deriving DecidableEq, Repr

/-- A coerced Go value.  Integer kinds carry their mathematical value (the
conversions `int8(v)` etc. are lossless when no range error occurred). -/
inductive GoValue where
  | intV : Int → GoValue
  | uintV : Nat → GoValue
  | floatV : FloatVal → GoValue
  | strV : String → GoValue
deriving DecidableEq, Repr

/-- Embeds `coerce(s, t)`.  Case order mirrors the Go switch; `int` uses
64-bit parsing (`ParseInt(s, 10, 64)` followed by `int(v)` on a 64-bit
platform). -/
def coerce (s : String) (t : GoKind) : Except Unit GoValue :=
  match t with
  | .int => (parseInt s 64).map .intV
  | .int8 => (parseInt s 8).map .intV
  | .uint8 => (parseUint s 8).map .uintV
  | .int16 => (parseInt s 16).map .intV
  | .uint16 => (parseUint s 16).map .uintV
  | .int32 => (parseInt s 32).map .intV
  | .uint32 => (parseUint s 32).map .uintV
  | .int64 => (parseInt s 64).map .intV
  | .uint64 => (parseUint s 64).map .uintV
  | .float32 => (parseFloat s 32).map .floatV
  | .float64 => (parseFloat s 64).map .floatV
  | .str => .ok (.strV s)
  | .other => .error ()

/-! ## Embedding of the path-template compiler and matcher

`Route.path` builds the regular expression
`"^" ++ pathTransform.ReplaceAllString(template, "([^/]+)") ++ "$"`,
where `pathTransform` is the regular expression `({\w+})`.  The leftover
template text is inserted into the pattern unescaped, so regexp
metacharacters in it stay active.  The embedding covers the fragment those
patterns use in which matching is compositional per character: literal runs,
the `.` wildcard (one character other than newline), and the `([^/]+)`
capture groups.  Leftover text holding any other metacharacter (`* + ? ( )
[ ] | ^ $ \` or a brace) builds a quantified, grouped, classed — or
uncompilable, hence discarded and nil — pattern; such templates are outside
the model, and the theorems that quantify over templates carry an
`inertPieces` hypothesis confining them to the modelled fragment.
`scanTemplate` performs the leftmost, non-overlapping replacement, and
`matchPieces` is anchored matching with the leftmost-first (greedy,
backtracking-order) submatch semantics that Go's `FindStringSubmatch`
documents for such patterns. -/

/-- One piece of a compiled route pattern: a literal run of characters, an
unescaped `.` wildcard from the leftover template text, or a `([^/]+)`
capture group remembering its placeholder name. -/
inductive Piece where
  | lit : List Char → Piece
  | dot : Piece
  | param : String → Piece
deriving DecidableEq, Repr

/-- `\w` of Go's regexp: ASCII letters, digits and underscore. -/
def isWordChar (c : Char) : Bool := c.isAlphanum || c = '_'

/-- Scanner state: a plain literal run being accumulated (reversed), or an
open `\x7b` whose candidate placeholder name is being accumulated (reversed,
with the pending literal run before it). -/
inductive ScanState where
  | plain : List Char → ScanState
  | brace : List Char → List Char → ScanState

/-- Emit a pending (reversed) literal run in front of a piece list, dropping
it when empty. -/
def flushLit (acc : List Char) (ps : List Piece) : List Piece :=
  if acc = [] then ps else .lit acc.reverse :: ps

/-- Core of `pathTransform.ReplaceAllString`: scan the template left to
right; each `\x7bname\x7d` with a non-empty `\w+` name becomes a capture
group, a leftover `.` stays an active wildcard in the built pattern, and all
other characters stay in the leftover text (where further metacharacters
would also stay active — see `inertPieces`). -/
def scanAux : ScanState → List Char → List Piece
  | .plain acc, [] => flushLit acc []
  | .plain acc, c :: cs =>
    if c = '\x7b' then scanAux (.brace acc []) cs
    else if c = '.' then flushLit acc (.dot :: scanAux (.plain []) cs)
    else scanAux (.plain (c :: acc)) cs
  | .brace acc name, [] => flushLit (name ++ '\x7b' :: acc) []
  | .brace acc name, c :: cs =>
    if c = '\x7d' then
      if name = [] then scanAux (.plain ('\x7d' :: '\x7b' :: acc)) cs
      else flushLit acc (.param name.reverse.asString :: scanAux (.plain []) cs)
    else if c = '\x7b' then scanAux (.brace (name ++ '\x7b' :: acc) []) cs
    else if c = '.' then flushLit (name ++ '\x7b' :: acc) (.dot :: scanAux (.plain []) cs)
    else if isWordChar c then scanAux (.brace acc (c :: name)) cs
    else scanAux (.plain (c :: name ++ '\x7b' :: acc)) cs

/-- Compile a template string into its pieces. -/
def scanTemplate (template : String) : List Piece :=
  scanAux (.plain []) template.toList

/-- The placeholder names of a compiled template, in order. -/
def pieceNames (pieces : List Piece) : List String :=
  pieces.filterMap fun p => match p with | .param n => some n | _ => none

/-- Characters of leftover template text that Go's regexp engine matches as
themselves.  The excluded characters are the metacharacters that stay
active when `Route.path` inserts the text unescaped — quantifiers, groups,
classes, alternation, anchors, escapes and braces — plus `.`, which the
scanner already turns into a wildcard piece. -/
def inertChar (c : Char) : Bool :=
  !(c = '.' || c = '*' || c = '+' || c = '?' || c = '(' || c = ')' ||
    c = '[' || c = ']' || c = '|' || c = '^' || c = '$' || c = '\\' ||
    c = '\x7b' || c = '\x7d')

/-- Whether a piece belongs to the exactly-modelled pattern fragment:
literal runs of inert characters and capture groups.  Wildcards are
excluded so that a template accepts exactly the paths its substitution
instances spell out. -/
def inertPiece : Piece → Bool
  | .lit l => l.all inertChar
  | .dot => false
  | .param _ => true

/-- A compiled template whose pattern the embedding models exactly: every
literal character is matched as itself by the compiled regexp and no
wildcard is present. -/
def inertPieces (pieces : List Piece) : Bool := pieces.all inertPiece

/-- Candidate capture lengths for a `([^/]+)` group at the head of `input`,
longest first: the greedy `+` tries the whole maximal slash-free prefix and
backtracks one character at a time, never matching the empty string. -/
def greedyLens (input : List Char) : List Nat :=
  ((List.range (input.takeWhile (fun c => c ≠ '/')).length).reverse).map (· + 1)

/-- Anchored matching of a compiled pattern against a whole input, returning
the list of group captures.  Capture selection follows the backtracking
order of Go's regexp engine: each greedy group prefers the longest
slash-free, non-empty prefix that lets the rest of the pattern match. -/
def matchPieces : List Piece → List Char → Option (List (List Char))
  | [], input => if input.isEmpty then some [] else none
  | .lit l :: ps, input =>
    if l.isPrefixOf input then matchPieces ps (input.drop l.length) else none
  | .dot :: ps, input =>
    match input with
    | [] => none
    | c :: cs => if c = '\n' then none else matchPieces ps cs
  | .param _ :: ps, input =>
    (greedyLens input).findSome? fun k =>
      (matchPieces ps (input.drop k)).map fun caps => input.take k :: caps

/-- `FindStringSubmatch` on an anchored-exact pattern: index 0 is the whole
match (the entire input), followed by the group captures. -/
def findFull (pieces : List Piece) (input : List Char) : Option (List (List Char)) :=
  (matchPieces pieces input).map fun caps => input :: caps

/-- True when every character of the list differs from `/`. -/
def noSlash (cs : List Char) : Bool := cs.all fun c => c ≠ '/'

/-- Modelled from the spec: `Render(values)` — reverse routing, absent from
the sources (only `Route.Named` exists there).  It substitutes each
placeholder occurrence with `values[name]`, keeps literals, and fails when
a name is absent from the mapping. -/
def renderPieces (pieces : List Piece) (values : String → Option String) :
    Option (List Char) :=
  match pieces with
  | [] => some []
  | .lit l :: ps => (renderPieces ps values).map fun rest => l ++ rest
  | .dot :: ps => (renderPieces ps values).map fun rest => '.' :: rest
  | .param n :: ps =>
    match values n with
    | none => none
    | some v => (renderPieces ps values).map fun rest => v.toList ++ rest

/-- The name-to-value mapping obtained by pairing the template's placeholder
names with the captures Match produced, in order. -/
def lookupValues (names : List String) (caps : List (List Char)) :
    String → Option String :=
  fun n => ((names.zip caps).lookup n).map List.asString

/-- Build the concrete path obtained by substituting the given values, in
order, for the placeholders of a compiled template.  Fails when the number
of values differs from the number of placeholders. -/
def substPieces : List Piece → List (List Char) → Option (List Char)
  | [], [] => some []
  | [], _ :: _ => none
  | .lit l :: ps, vs => (substPieces ps vs).map fun rest => l ++ rest
  | .dot :: ps, vs => (substPieces ps vs).map fun rest => '.' :: rest
  | .param _ :: _, [] => none
  | .param _ :: ps, v :: vs => (substPieces ps vs).map fun rest => v ++ rest

/-- Whether a literal run starts with `/`. -/
def startsSlash (l : List Char) : Bool := l.head? == some '/'

/-- A compiled template is segment-delimited when it holds no wildcard and
every placeholder is immediately followed by a literal starting with `/`,
or is the final piece: each placeholder then spans a whole path segment and
the decomposition of a substituted path is unambiguous. -/
def segmented : List Piece → Bool
  | [] => true
  | .lit _ :: ps => segmented ps
  | .dot :: _ => false
  | [.param _] => true
  | .param _ :: .lit l :: ps => startsSlash l && segmented (.lit l :: ps)
  | .param _ :: .dot :: _ => false
  | .param _ :: .param _ :: _ => false

/-! ## Embedding of `Route`, `FunctionDispatcher` and `Service.ServeHTTP` -/

/-- The request data consumed by `Route.match`: the method string and the
request URI that the compiled pattern is matched against. -/
structure Request where
  method : String
  requestURI : String
deriving DecidableEq, Repr

/-- A registered route as used during serving: its method list, its compiled
pattern (`none` embeds a nil `*regexp.Regexp`, left by `NewRoute` when no
path was set or by a discarded `regexp.Compile` error), whether a request
body type is declared, and the declared parameter kinds of its handler
function (index 0 is the `*Context` parameter).

Modelled from the spec: the `body` flag and its place in the expected
argument count (`1 + 1 + len(args)` when a body is declared) embed the
`DecodeRequest` body declaration that the repository's tests exercise but
whose implementation is not among the sources; `webservice.go`'s
`FunctionDispatcher` is the `body = false` case. -/
structure RouteM where
  methods : List String
  pattern : Option (List Piece)
  body : Bool
  sig : List GoKind
deriving DecidableEq, Repr

/-- The method test of `Route.match`: an empty method list accepts every
method, otherwise the request method must be among the registered ones. -/
def methodOk (methods : List String) (m : String) : Bool :=
  methods.isEmpty || methods.contains m

/-- Embeds `Route.match`: `nil` is no match; a route with a nil pattern
matches with the request URI as the sole element; otherwise the result is
`FindStringSubmatch` of the pattern on the request URI. -/
def matchRoute (r : RouteM) (req : Request) : Option (List String) :=
  if methodOk r.methods req.method then
    match r.pattern with
    | none => some [req.requestURI]
    | some pieces =>
      (matchPieces pieces req.requestURI.toList).map fun caps =>
        req.requestURI :: caps.map List.asString
  else none

/-- Outcome of the dispatcher closure built by `FunctionDispatcher`:
an arity mismatch writes status 500 with body "Invalid number of args" and
returns `true`; a coercion failure returns `false` with nothing written;
otherwise the handler function is called with the coerced values and the
closure returns `true`. -/
inductive DispatchResult where
  | arityError : DispatchResult
  | coerceFail : DispatchResult
  | call : List GoValue → DispatchResult
deriving DecidableEq, Repr

/-- The coercion loop of `FunctionDispatcher`: coerce each captured string
to the declared kind at its position, stopping at the first failure. -/
def coerceArgs (kinds : List GoKind) (args : List String) : Option (List GoValue) :=
  (kinds.zip args).mapM fun ks => (coerce ks.2 ks.1).toOption

/-- Number of leading handler parameters consumed before the path
parameters: the context, plus the decoded body when one is declared. -/
def leadCount (body : Bool) : Nat := if body then 2 else 1

/-- Embeds the dispatcher closure of `FunctionDispatcher` applied to a
context carrying `args` (the captures after index 0). -/
def functionDispatcher (body : Bool) (sig : List GoKind) (args : List String) :
    DispatchResult :=
  if sig.length ≠ leadCount body + args.length then .arityError
  else
    match coerceArgs (sig.drop (leadCount body)) args with
    | none => .coerceFail
    | some vals => .call vals

/-- Per-request outcome of `Service.ServeHTTP`: a 500 written by a
dispatcher arity error, a handler invocation with the coerced values, or the
fallback handler. -/
inductive ServeOutcome where
  | status500 : ServeOutcome
  | handled : List GoValue → ServeOutcome
  | fallback : ServeOutcome
deriving DecidableEq, Repr

/-- Embeds `Service.ServeHTTP`: scan the routes in registration order; a
route whose match is non-empty is applied (`Route.apply` passes
`args[1:]`); a dispatcher returning `true` ends the request, `false`
continues the scan; when no route ends the request the fallback handler
runs. -/
def serveHTTP (routes : List RouteM) (req : Request) : ServeOutcome :=
  match routes with
  | [] => .fallback
  | r :: rest =>
    match matchRoute r req with
    | none => serveHTTP rest req
    | some args =>
      if args.length = 0 then serveHTTP rest req
      else
        match functionDispatcher r.body r.sig (args.drop 1) with
        | .arityError => .status500
        | .coerceFail => serveHTTP rest req
        | .call vals => .handled vals

/-- Embeds `Route.ServeHTTP`, which runs `r.apply(r.match(req), ...)`
unconditionally: when the match is `nil` (or empty), `args[1:]` panics,
modelled as `none`. -/
def routeServeHTTP (r : RouteM) (req : Request) : Option DispatchResult :=
  match matchRoute r req with
  | none => none
  | some args => if args.isEmpty then none else some (functionDispatcher r.body r.sig (args.drop 1))

/-! ## Embedding of the response envelope and the serializer registry -/

/-- Embeds the `Response` struct: `S` the status, `E` the error (always a
string or nil), `D` the data (nil or an application value of type `α`). -/
structure Envelope (α : Type) where
  S : Nat
  E : Option String
  D : Option α
deriving DecidableEq, Repr

/-- What `Context.Respond` does, observably: it sets the response
content type, writes the status header, and JSON-encodes an `Envelope`. -/
structure RespondOutcome (α : Type) where
  headerContentType : String
  statusWritten : Nat
  bodyV : Envelope α
deriving DecidableEq, Repr

/-- Embeds `Context.Respond(status, error, data)`: the envelope's error
field is nil unless the supplied error string is non-empty. -/
def respond (α : Type) (status : Nat) (error : String) (data : Option α) :
    RespondOutcome α :=
  { headerContentType := "application/json"
    statusWritten := status
    bodyV := { S := status, E := if error = "" then none else some error, D := data } }

/-- Embeds `Context.RespondWithErrorMessage(error, status)`. -/
def respondWithErrorMessage (α : Type) (error : String) (status : Nat) : RespondOutcome α :=
  respond α status error none

/-- Embeds `Context.RespondWithStatus(status)`. -/
def respondWithStatus (α : Type) (status : Nat) : RespondOutcome α :=
  respond α status "" none

/-- Embeds `Context.RespondWithData(v)`. -/
def respondWithData (α : Type) (v : α) : RespondOutcome α :=
  respond α 200 "" (some v)

/-- A registered codec, abstracted to the one observable `Encode` exposes
for a given value: whether encoding that value succeeds. -/
structure Codec where
  encodeOk : Bool
deriving DecidableEq, Repr

/-- Errors surfaced by the serializer registry. -/
inductive SerErr where
  | unsupportedContentType : SerErr
  | codecFailure : SerErr
deriving DecidableEq, Repr

/-- Embeds `SerializerMap.Encode`: an exact-key lookup in the registry;
a missing key is `UnsupportedContentType`, a present codec encodes (and may
itself fail). -/
def encodeSM (registry : List (String × Codec)) (ct : String) : Except SerErr Unit :=
  match registry.lookup ct with
  | some c => if c.encodeOk then .ok () else .error .codecFailure
  | none => .error .unsupportedContentType

/-- What `SerializerMap.EncodeResponse` does, observably: the Content-Type
header it sets, the status it writes, the envelope the body encodes (none
when encoding failed), and its returned error. -/
structure EncodeRespOutcome (α : Type) where
  headerContentType : String
  statusWritten : Nat
  bodyV : Option (Envelope α)
  result : Except SerErr Unit
deriving DecidableEq, Repr

/-- Embeds `SerializerMap.EncodeResponse`: the content type is the request's
Accept header, or its Content-Type header when Accept is empty; any `Encode`
failure writes status 400 and returns `UnsupportedContentType`; on success
the body is the encoded envelope and the envelope's status is written. -/
def encodeResponse (α : Type) (registry : List (String × Codec))
    (accept contentType : String) (response : Envelope α) : EncodeRespOutcome α :=
  let ct := if accept = "" then contentType else accept
  match encodeSM registry ct with
  | .ok _ =>
    { headerContentType := ct, statusWritten := response.S
      bodyV := some response, result := .ok () }
  | .error _ =>
    { headerContentType := ct, statusWritten := 400
      bodyV := none, result := .error .unsupportedContentType }

/-- The keys of the built-in `Serializers` registry. -/
def builtinSerializerKeys : List String :=
  ["application/json", "application/x-msgpack", "application/bson"]

/-- The built-in `Serializers` registry, with every codec able to encode the
value at hand. -/
def builtinSerializers : List (String × Codec) :=
  builtinSerializerKeys.map fun k => (k, { encodeOk := true })

/-! ## Helper lemmas about the matcher -/

theorem matchPieces_nil_iff (input : List Char) (caps : List (List Char)) :
    matchPieces [] input = some caps ↔ input = [] ∧ caps = [] := by
  constructor
  · intro h
    simp only [matchPieces] at h
    by_cases he : input.isEmpty
    · simp only [he, if_pos] at h
      exact ⟨List.isEmpty_iff.mp he, (Option.some.injEq _ _ ▸ h).symm⟩
    · simp [he] at h
  · rintro ⟨rfl, rfl⟩
    simp [matchPieces]

theorem matchPieces_lit_append (l : List Char) (ps : List Piece) (s : List Char) :
    matchPieces (.lit l :: ps) (l ++ s) = matchPieces ps s := by
  have h1 : l.isPrefixOf (l ++ s) = true := by
    simp [List.isPrefixOf_iff_prefix]
  simp [matchPieces, h1, List.drop_left]

theorem matchPieces_lit_inv (l : List Char) (ps : List Piece) (input : List Char)
    (caps : List (List Char)) (h : matchPieces (.lit l :: ps) input = some caps) :
    ∃ s, input = l ++ s ∧ matchPieces ps s = some caps := by
  simp only [matchPieces] at h
  by_cases hp : l.isPrefixOf input
  · obtain ⟨s, rfl⟩ := List.isPrefixOf_iff_prefix.mp hp
    exact ⟨s, rfl, by simpa [List.drop_left] using h⟩
  · simp [hp] at h

theorem matchPieces_dot_inv (ps : List Piece) (input : List Char)
    (caps : List (List Char)) (h : matchPieces (.dot :: ps) input = some caps) :
    ∃ c cs, input = c :: cs ∧ c ≠ '\n' ∧ matchPieces ps cs = some caps := by
  match input with
  | [] => simp [matchPieces] at h
  | c :: cs =>
    simp only [matchPieces] at h
    by_cases hc : c = '\n'
    · simp [hc] at h
    · exact ⟨c, cs, rfl, hc, by simpa [hc] using h⟩

theorem mem_greedyLens (input : List Char) (k : Nat) (h : k ∈ greedyLens input) :
    1 ≤ k ∧ k ≤ (input.takeWhile (fun c => c ≠ '/')).length := by
  simp only [greedyLens, List.mem_map, List.mem_reverse, List.mem_range] at h
  obtain ⟨j, hj, rfl⟩ := h
  omega

theorem matchPieces_param_inv (n : String) (ps : List Piece) (input : List Char)
    (caps : List (List Char)) (h : matchPieces (.param n :: ps) input = some caps) :
    ∃ k caps2, 1 ≤ k ∧ k ≤ (input.takeWhile (fun c => c ≠ '/')).length ∧
      matchPieces ps (input.drop k) = some caps2 ∧ caps = input.take k :: caps2 := by
  simp only [matchPieces] at h
  obtain ⟨k, hk, hfk⟩ := List.exists_of_findSome?_eq_some h
  obtain ⟨caps2, h2, h3⟩ := Option.map_eq_some'.mp hfk
  obtain ⟨hk1, hk2⟩ := mem_greedyLens input k hk
  exact ⟨k, caps2, hk1, hk2, h2, h3.symm⟩

theorem all_take_of_le_takeWhile {α : Type} (p : α → Bool) :
    ∀ (l : List α) (k : Nat), k ≤ (l.takeWhile p).length → (l.take k).all p = true := by
  intro l
  induction l with
  | nil => intro k _; simp
  | cons c cs ih =>
    intro k hk
    by_cases hpc : p c
    · match k with
      | 0 => simp
      | k + 1 =>
        rw [List.takeWhile_cons, if_pos hpc] at hk
        simp only [List.length_cons, Nat.add_le_add_iff_right] at hk
        simp [hpc, ih k hk]
    · rw [List.takeWhile_cons, if_neg hpc] at hk
      simp only [List.length_nil, Nat.le_zero] at hk
      subst hk
      simp

theorem matchPieces_caps_ok (pieces : List Piece) :
    ∀ (input : List Char) (caps : List (List Char)),
      matchPieces pieces input = some caps →
      ∀ c ∈ caps, c ≠ [] ∧ noSlash c = true := by
  induction pieces with
  | nil =>
    intro input caps h c hc
    obtain ⟨rfl, rfl⟩ := (matchPieces_nil_iff input caps).mp h
    simp at hc
  | cons p ps ih =>
    intro input caps h c hc
    match p with
    | .lit l =>
      obtain ⟨s, rfl, h2⟩ := matchPieces_lit_inv l ps input caps h
      exact ih s caps h2 c hc
    | .dot =>
      obtain ⟨a, cs, rfl, -, h2⟩ := matchPieces_dot_inv ps input caps h
      exact ih cs caps h2 c hc
    | .param n =>
      obtain ⟨k, caps2, hk1, hk2, h2, rfl⟩ := matchPieces_param_inv n ps input caps h
      rcases List.mem_cons.mp hc with rfl | hc2
      · constructor
        · have hlen : (input.takeWhile (fun c => c ≠ '/')).length ≤ input.length :=
            (List.takeWhile_sublist _).length_le
          have : (input.take k).length = min k input.length := List.length_take k input
          intro hnil
          rw [hnil] at this
          simp only [List.length_nil] at this
          omega
        · exact all_take_of_le_takeWhile _ input k hk2
      · exact ih (input.drop k) caps2 h2 c hc2

theorem matchPieces_param_append (n : String) (ps : List Piece) (v s : List Char)
    (caps : List (List Char)) (hv : v ≠ []) (hns : noSlash v = true)
    (hs : s.takeWhile (fun c => c ≠ '/') = [])
    (h : matchPieces ps s = some caps) :
    matchPieces (.param n :: ps) (v ++ s) = some (v :: caps) := by
  have hpos : ∀ c ∈ v, (fun c => decide (c ≠ '/')) c = true := by
    intro c hc
    exact List.all_eq_true.mp hns c hc
  have htw : (v ++ s).takeWhile (fun c => c ≠ '/') = v := by
    rw [List.takeWhile_append_of_pos (by simpa using hpos), hs, List.append_nil]
  obtain ⟨m, hm⟩ : ∃ m, v.length = m + 1 := by
    cases v with
    | nil => exact absurd rfl hv
    | cons a as => exact ⟨as.length, rfl⟩
  have hgl : greedyLens (v ++ s) = v.length :: (List.range m).reverse.map (· + 1) := by
    simp only [greedyLens, htw, hm, List.range_succ, List.reverse_append,
      List.reverse_cons, List.reverse_nil, List.nil_append, List.map_cons]
    simp [hm]
  have hf : ((matchPieces ps ((v ++ s).drop v.length)).map
      fun caps2 => (v ++ s).take v.length :: caps2) = some (v :: caps) := by
    rw [List.drop_left, List.take_left, h]
    rfl
  simp only [matchPieces, hgl]
  rw [List.findSome?_cons_of_isSome _ (by rw [hf]; rfl)]
  exact hf

theorem matchPieces_subst (pieces : List Piece) :
    ∀ (vals : List (List Char)) (input : List Char),
      segmented pieces = true →
      (∀ v ∈ vals, v ≠ [] ∧ noSlash v = true) →
      substPieces pieces vals = some input →
      matchPieces pieces input = some vals := by
  induction pieces with
  | nil =>
    intro vals input _ _ hsub
    match vals with
    | [] =>
      simp only [substPieces, Option.some.injEq] at hsub
      subst hsub
      simp [matchPieces]
    | v :: vs => simp [substPieces] at hsub
  | cons p ps ih =>
    intro vals input hseg hvals hsub
    match p with
    | .lit l =>
      simp only [substPieces] at hsub
      obtain ⟨s, hs1, rfl⟩ := Option.map_eq_some'.mp hsub
      rw [matchPieces_lit_append]
      exact ih vals s (by simpa [segmented] using hseg) hvals hs1
    | .dot => simp [segmented] at hseg
    | .param n =>
      match vals with
      | [] => simp [substPieces] at hsub
      | v :: vs =>
        simp only [substPieces] at hsub
        obtain ⟨s, hs1, rfl⟩ := Option.map_eq_some'.mp hsub
        obtain ⟨hv1, hv2⟩ := hvals v (List.mem_cons_self v vs)
        have hvals2 : ∀ w ∈ vs, w ≠ [] ∧ noSlash w = true :=
          fun w hw => hvals w (List.mem_cons_of_mem v hw)
        match ps with
        | [] =>
          match vs with
          | _ :: _ => simp [substPieces] at hs1
          | [] =>
            simp only [substPieces, Option.some.injEq] at hs1
            subst hs1
            exact matchPieces_param_append n [] v [] [] hv1 hv2 rfl (by simp [matchPieces])
        | .param m :: ps2 => simp [segmented] at hseg
        | .dot :: ps2 => simp [segmented] at hseg
        | .lit l :: ps2 =>
          have hseg2 : startsSlash l = true ∧ segmented (.lit l :: ps2) = true := by
            simpa [segmented] using hseg
          have hmps : matchPieces (.lit l :: ps2) s = some vs :=
            ih vs s hseg2.2 hvals2 hs1
          have hstw : s.takeWhile (fun c => c ≠ '/') = [] := by
            simp only [substPieces] at hs1
            obtain ⟨s2, _, rfl⟩ := Option.map_eq_some'.mp hs1
            cases l with
            | nil => simp [startsSlash] at hseg2
            | cons c l2 =>
              have hc : c = '/' := by simpa [startsSlash] using hseg2.1
              subst hc
              simp [List.takeWhile_cons]
          exact matchPieces_param_append n (.lit l :: ps2) v s vs hv1 hv2 hstw hmps

theorem pieceNames_cons_lit (l : List Char) (ps : List Piece) :
    pieceNames (.lit l :: ps) = pieceNames ps := by
  simp [pieceNames, List.filterMap_cons]

theorem pieceNames_cons_param (n : String) (ps : List Piece) :
    pieceNames (.param n :: ps) = n :: pieceNames ps := by
  simp [pieceNames, List.filterMap_cons]

theorem pieceNames_cons_dot (ps : List Piece) :
    pieceNames (.dot :: ps) = pieceNames ps := by
  simp [pieceNames, List.filterMap_cons]

theorem renderPieces_congrOn (pieces : List Piece) (f g : String → Option String)
    (h : ∀ n ∈ pieceNames pieces, f n = g n) :
    renderPieces pieces f = renderPieces pieces g := by
  induction pieces with
  | nil => rfl
  | cons p ps ih =>
    match p with
    | .lit l =>
      simp only [renderPieces]
      rw [ih fun n hn => h n ((pieceNames_cons_lit l ps).symm ▸ hn)]
    | .dot =>
      simp only [renderPieces]
      rw [ih fun n hn => h n ((pieceNames_cons_dot ps).symm ▸ hn)]
    | .param n =>
      simp only [renderPieces]
      rw [h n (by rw [pieceNames_cons_param]; exact List.mem_cons_self n _)]
      rw [ih fun m hm => h m (by rw [pieceNames_cons_param]; exact List.mem_cons_of_mem n hm)]

/-- C4: the coerce function is faithful and bounds-checked for the supported
target types: "127" coerces to an 8-bit signed target as 127; "128" fails
for an 8-bit signed target; "-1" fails for every unsigned target; "3.14"
coerces to both floating-point targets but fails for every integer target;
string coercion is the identity; any other declared kind yields an error. -/
theorem c4_coerce_faithful_bounds_checked :
    coerce "127" .int8 = .ok (.intV 127) ∧
    coerce "128" .int8 = .error () ∧
    (coerce "-1" .uint8 = .error () ∧ coerce "-1" .uint16 = .error () ∧
      coerce "-1" .uint32 = .error () ∧ coerce "-1" .uint64 = .error ()) ∧
    (coerce "3.14" .float32 = .ok (.floatV (.finite 314 (-2))) ∧
      coerce "3.14" .float64 = .ok (.floatV (.finite 314 (-2)))) ∧
    (coerce "3.14" .int = .error () ∧ coerce "3.14" .int8 = .error () ∧
      coerce "3.14" .int16 = .error () ∧ coerce "3.14" .int32 = .error () ∧
      coerce "3.14" .int64 = .error () ∧ coerce "3.14" .uint8 = .error () ∧
      coerce "3.14" .uint16 = .error () ∧ coerce "3.14" .uint32 = .error () ∧
      coerce "3.14" .uint64 = .error ()) ∧
    (∀ s : String, coerce s .str = .ok (.strV s)) ∧
    (∀ s : String, coerce s .other = .error ()) := by
  refine ⟨rfl, rfl, ⟨rfl, rfl, rfl, rfl⟩, ⟨by decide, by decide⟩,
    ⟨rfl, rfl, rfl, rfl, rfl, rfl, rfl, rfl, rfl⟩, fun s => rfl, fun s => rfl⟩

/-- C1: when a registered route's method set and path pattern match a
request but coercing one of the captured path-parameter strings to the
handler's declared parameter kind fails (the arity check having passed),
the dispatcher returns without writing a response and the service continues
scanning the subsequent routes in registration order, so the request's
outcome is whatever the remaining routes produce — the fallback handler
only when no later route succeeds. -/
theorem c1_coercion_failure_falls_through (r : RouteM) (rest : List RouteM)
    (req : Request) (args : List String)
    (hm : matchRoute r req = some args) (hne : args ≠ [])
    (harity : r.sig.length = leadCount r.body + (args.length - 1))
    (hc : coerceArgs (r.sig.drop (leadCount r.body)) (args.drop 1) = none) :
    functionDispatcher r.body r.sig (args.drop 1) = .coerceFail ∧
    serveHTTP (r :: rest) req = serveHTTP rest req := by
  have hlen : ¬ args.length = 0 := by simpa [List.length_eq_zero] using hne
  have hd : functionDispatcher r.body r.sig (args.drop 1) = .coerceFail := by
    simp only [functionDispatcher, List.length_drop]
    rw [if_neg (by omega), hc]
  have hd2 : functionDispatcher r.body r.sig args.tail = .coerceFail := by
    rwa [List.drop_one] at hd
  exact ⟨hd, by simp [serveHTTP, hm, hlen, hd2]⟩

theorem c1_witness :
    matchRoute (RouteM.mk ["GET"] (some (scanTemplate "/i/\x7bx\x7d")) false
        [.other, .int8]) (Request.mk "GET" "/i/128") = some ["/i/128", "128"] ∧
    serveHTTP [RouteM.mk ["GET"] (some (scanTemplate "/i/\x7bx\x7d")) false
        [.other, .int8]] (Request.mk "GET" "/i/128")
      = serveHTTP [] (Request.mk "GET" "/i/128") ∧
    serveHTTP [] (Request.mk "GET" "/i/128") = .fallback :=
  ⟨by decide,
    (c1_coercion_failure_falls_through
      (RouteM.mk ["GET"] (some (scanTemplate "/i/\x7bx\x7d")) false [.other, .int8])
      [] (Request.mk "GET" "/i/128") ["/i/128", "128"]
      (by decide) (by decide) (by decide) (by decide)).2,
    by decide⟩

/-- C2: when a matched route's function handler declares a parameter count
different from 1 (context) + 1 if a body is declared + the number of
captured path parameters, the dispatcher writes HTTP status 500 and returns
handled, so no subsequent route is tried, whatever the remaining routes
are (and independently of any content type, which the dispatcher never
consults). -/
theorem c2_arity_mismatch_is_500 (r : RouteM) (rest : List RouteM)
    (req : Request) (args : List String)
    (hm : matchRoute r req = some args) (hne : args ≠ [])
    (ha : r.sig.length ≠ 1 + (if r.body then 1 else 0) + (args.length - 1)) :
    functionDispatcher r.body r.sig (args.drop 1) = .arityError ∧
    serveHTTP (r :: rest) req = .status500 := by
  have hlen : ¬ args.length = 0 := by simpa [List.length_eq_zero] using hne
  have hd : functionDispatcher r.body r.sig (args.drop 1) = .arityError := by
    simp only [functionDispatcher, List.length_drop]
    rw [if_pos]
    have : leadCount r.body = 1 + (if r.body then 1 else 0) := by
      cases r.body <;> simp [leadCount]
    omega
  have hd2 : functionDispatcher r.body r.sig args.tail = .arityError := by
    rwa [List.drop_one] at hd
  exact ⟨hd, by simp [serveHTTP, hm, hlen, hd2]⟩

theorem c2_witness :
    matchRoute (RouteM.mk ["GET"] (some (scanTemplate "/i/\x7bx\x7d")) false
        [.other]) (Request.mk "GET" "/i/5") = some ["/i/5", "5"] ∧
    serveHTTP [RouteM.mk ["GET"] (some (scanTemplate "/i/\x7bx\x7d")) false
        [.other], RouteM.mk [] none false [.other]] (Request.mk "GET" "/i/5")
      = .status500 :=
  ⟨by decide,
    (c2_arity_mismatch_is_500
      (RouteM.mk ["GET"] (some (scanTemplate "/i/\x7bx\x7d")) false [.other])
      [RouteM.mk [] none false [.other]] (Request.mk "GET" "/i/5") ["/i/5", "5"]
      (by decide) (by decide) (by decide)).2⟩

/-- C3 is false as stated: for the template with adjacent-in-segment
placeholders "/\x7ba\x7dx\x7bb\x7d" and the path "/1x2x3" built by
substituting the non-empty slash-free values a := "1", b := "2x3", Match
succeeds but its captures are "1x2", "3" — the greedy first group takes
more than the substituted value — so the returned elements are not the
substituted values. -/
theorem c3_counterexample :
    substPieces (scanTemplate "/\x7ba\x7dx\x7bb\x7d") ["1".toList, "2x3".toList]
      = some "/1x2x3".toList ∧
    ("1".toList ≠ [] ∧ noSlash "1".toList = true) ∧
    ("2x3".toList ≠ [] ∧ noSlash "2x3".toList = true) ∧
    findFull (scanTemplate "/\x7ba\x7dx\x7bb\x7d") "/1x2x3".toList
      = some ["/1x2x3".toList, "1x2".toList, "3".toList] ∧
    (["1x2".toList, "3".toList] : List (List Char)) ≠ ["1".toList, "2x3".toList] := by
  exact ⟨by decide, by decide, by decide, by decide, by decide⟩

/-- C3 (amended): for every segment-delimited template — each placeholder
immediately followed by a literal starting with `/`, or final — whose
leftover literal text contains no regexp metacharacter, and every concrete
path built by substituting arbitrary non-empty slash-free strings for the
placeholders, Match returns a capture list whose first element is the whole
matched path and whose subsequent elements are exactly the substituted
values, in template order. -/
theorem c3_match_substituted_segmented (pieces : List Piece)
    (vals : List (List Char)) (input : List Char)
    (hseg : segmented pieces = true)
    (_hinert : inertPieces pieces = true)
    (hvals : ∀ v ∈ vals, v ≠ [] ∧ noSlash v = true)
    (hsub : substPieces pieces vals = some input) :
    findFull pieces input = some (input :: vals) := by
  rw [findFull, matchPieces_subst pieces vals input hseg hvals hsub]
  rfl

theorem c3_witness :
    segmented (scanTemplate "/items/\x7bid\x7d") = true ∧
    inertPieces (scanTemplate "/items/\x7bid\x7d") = true ∧
    substPieces (scanTemplate "/items/\x7bid\x7d") ["42".toList]
      = some "/items/42".toList ∧
    findFull (scanTemplate "/items/\x7bid\x7d") "/items/42".toList
      = some ["/items/42".toList, "42".toList] :=
  ⟨by decide, by decide, by decide,
    c3_match_substituted_segmented (scanTemplate "/items/\x7bid\x7d")
      ["42".toList] "/items/42".toList (by decide) (by decide) (by decide) (by decide)⟩

/-- C7 is false of the program: the round-trip law fails for a template
whose leftover text holds an unescaped `.`.  The template "/x.y/\x7bid\x7d"
compiles to a pattern in which `.` is a wildcard, so the path "/xZy/7"
matches with the single capture "7" — and rendering the template with
id := "7" produces "/x.y/7", which is not the matched path. -/
theorem c7_counterexample :
    (pieceNames (scanTemplate "/x.y/\x7bid\x7d")).Nodup ∧
    matchPieces (scanTemplate "/x.y/\x7bid\x7d") "/xZy/7".toList
      = some ["7".toList] ∧
    renderPieces (scanTemplate "/x.y/\x7bid\x7d")
      (lookupValues (pieceNames (scanTemplate "/x.y/\x7bid\x7d")) ["7".toList])
      = some "/x.y/7".toList ∧
    "/x.y/7".toList ≠ "/xZy/7".toList := by
  exact ⟨by decide, by decide, by decide, by decide⟩

/-- C7 (amended): for every template with distinct placeholder names whose
leftover literal text contains no regexp metacharacter (no template of this
code contains a greedy placeholder), rendering the template with the
name-to-value mapping taken from a successful Match reconstructs the
matched path: Render substitutes each placeholder occurrence with the
mapped value, and fails when a name is absent from the mapping (which the
`lookupValues` mapping of a successful match never is). -/
theorem c7_render_match_roundtrip (pieces : List Piece) (input : List Char)
    (caps : List (List Char)) (hnodup : (pieceNames pieces).Nodup)
    (hinert : inertPieces pieces = true)
    (h : matchPieces pieces input = some caps) :
    renderPieces pieces (lookupValues (pieceNames pieces) caps) = some input := by
  induction pieces generalizing input caps with
  | nil =>
    obtain ⟨rfl, rfl⟩ := (matchPieces_nil_iff input caps).mp h
    rfl
  | cons p ps ih =>
    match p with
    | .lit l =>
      obtain ⟨s, rfl, h2⟩ := matchPieces_lit_inv l ps input caps h
      have hnd : (pieceNames ps).Nodup := by rwa [pieceNames_cons_lit] at hnodup
      have hin : inertPieces ps = true := by
        simp only [inertPieces, List.all_cons, Bool.and_eq_true] at hinert
        exact hinert.2
      simp only [renderPieces, pieceNames_cons_lit]
      rw [ih s caps hnd hin h2]
      rfl
    | .dot => simp [inertPieces, inertPiece] at hinert
    | .param n =>
      obtain ⟨k, caps2, hk1, hk2, h2, rfl⟩ := matchPieces_param_inv n ps input caps h
      rw [pieceNames_cons_param] at hnodup
      have hnotin : n ∉ pieceNames ps := (List.nodup_cons.mp hnodup).1
      have hnd2 : (pieceNames ps).Nodup := (List.nodup_cons.mp hnodup).2
      have hin2 : inertPieces ps = true := by
        simp only [inertPieces, List.all_cons, Bool.and_eq_true] at hinert
        exact hinert.2
      simp only [renderPieces, pieceNames_cons_param]
      have hvn : lookupValues (n :: pieceNames ps) (input.take k :: caps2) n
          = some ((input.take k).asString) := by
        simp [lookupValues]
      rw [hvn]
      have hcong : renderPieces ps (lookupValues (n :: pieceNames ps) (input.take k :: caps2))
          = renderPieces ps (lookupValues (pieceNames ps) caps2) := by
        apply renderPieces_congrOn
        intro m hm
        have hne : (m == n) = false := by
          simp only [beq_eq_false_iff_ne, ne_eq]
          intro he
          exact hnotin (he ▸ hm)
        simp [lookupValues, List.zip_cons_cons, List.lookup_cons, hne]
      rw [hcong, ih (input.drop k) caps2 hnd2 hin2 h2]
      have hts : ((List.take k input).asString).data = List.take k input :=
        List.toList_asString _
      simp [hts, List.take_append_drop]

theorem c7_witness :
    (pieceNames (scanTemplate "/u/\x7ba\x7d/\x7bb\x7d")).Nodup ∧
    inertPieces (scanTemplate "/u/\x7ba\x7d/\x7bb\x7d") = true ∧
    matchPieces (scanTemplate "/u/\x7ba\x7d/\x7bb\x7d") "/u/x/yz".toList
      = some ["x".toList, "yz".toList] ∧
    renderPieces (scanTemplate "/u/\x7ba\x7d/\x7bb\x7d")
      (lookupValues (pieceNames (scanTemplate "/u/\x7ba\x7d/\x7bb\x7d"))
        ["x".toList, "yz".toList]) = some "/u/x/yz".toList :=
  ⟨by decide, by decide, by decide,
    c7_render_match_roundtrip (scanTemplate "/u/\x7ba\x7d/\x7bb\x7d")
      "/u/x/yz".toList ["x".toList, "yz".toList] (by decide) (by decide) (by decide)⟩

/-- C8 is false on this code: no greedy placeholder form exists.  The
placeholder transform recognises only plain `\x7bname\x7d` placeholders, so
a suffix-marked placeholder such as `\x7brest*\x7d` is not recognised at
all — the transform creates no capture group for it (its text, asterisk
included, is left in the pattern, where the `*` quantifies the preceding
character rather than capturing a remainder) — and a plain trailing
placeholder, compiled to `([^/]+)`, refuses a slash-containing remainder. -/
theorem c8_counterexample :
    pieceNames (scanTemplate "/files/\x7brest*\x7d") = [] ∧
    matchPieces (scanTemplate "/files/\x7brest\x7d") "/files/a/b".toList = none := by
  exact ⟨by decide, by decide⟩

/-- C8 (amended): there is no greedy placeholder; every recognised
placeholder compiles to `([^/]+)` and matches one or more characters
excluding `/`.  For every template whose leftover literal text contains no
regexp metacharacter (so the placeholder groups are the only capture
groups), each capture of a successful Match is non-empty and slash-free, so
no placeholder — trailing or otherwise — can capture a remainder containing
a slash. -/
theorem c8_no_greedy_placeholder (pieces : List Piece)
    (_hinert : inertPieces pieces = true) (input : List Char)
    (caps : List (List Char)) (h : matchPieces pieces input = some caps) :
    ∀ c ∈ caps, c ≠ [] ∧ noSlash c = true :=
  matchPieces_caps_ok pieces input caps h

theorem c8_witness :
    inertPieces (scanTemplate "/items/\x7bid\x7d") = true ∧
    matchPieces (scanTemplate "/items/\x7bid\x7d") "/items/42".toList
      = some ["42".toList] ∧
    ("42".toList ≠ [] ∧ noSlash "42".toList = true) :=
  ⟨by decide, by decide,
    c8_no_greedy_placeholder (scanTemplate "/items/\x7bid\x7d") (by decide)
      "/items/42".toList ["42".toList] (by decide) "42".toList (by decide)⟩

/-- C9 is false on this code: a route built from the malformed template
"/a/\x7bx" (unmatched brace) registers without any error — `Route.path`
discards the `regexp.Compile` error — reaches serving, and handles a
request: no `CompileError` is surfaced and startup is not stopped. -/
theorem c9_counterexample :
    serveHTTP [RouteM.mk ["GET"] (some (scanTemplate "/a/\x7bx")) false [.other]]
      (Request.mk "GET" "/a/\x7bx") = .handled [] := by decide

/-- C9 (amended): route registration never fails — `Route.path` discards
the `regexp.Compile` error and always returns a serving route.  For the
unmatched-brace template "/a/\x7bx", whose leftover text the regexp engine
treats as literal (`\x7b` followed by a non-digit is not a repetition and
matches itself), the route matches exactly the request whose URI is that
literal text.  Other malformed templates behave per their compiled pattern:
leftover metacharacters stay active, and a template whose pattern fails to
compile leaves a nil pattern that matches every request passing the method
check. -/
theorem c9_malformed_template_served : ∀ uri : String,
    (matchRoute (RouteM.mk ["GET"] (some (scanTemplate "/a/\x7bx")) false [.other])
      (Request.mk "GET" uri)).isSome ↔ uri = "/a/\x7bx" := by
  intro uri
  have hp : scanTemplate "/a/\x7bx" = [.lit "/a/\x7bx".toList] := by decide
  have hme : methodOk ["GET"] "GET" = true := by decide
  constructor
  · intro h
    simp only [matchRoute, hme, if_true, hp, Option.isSome_map'] at h
    obtain ⟨caps, hc⟩ := Option.isSome_iff_exists.mp h
    obtain ⟨s, hs, h2⟩ := matchPieces_lit_inv _ [] _ _ hc
    obtain ⟨rfl, -⟩ := (matchPieces_nil_iff s caps).mp h2
    rw [List.append_nil] at hs
    calc uri = uri.toList.asString := (String.asString_toList uri).symm
    _ = "/a/\x7bx" := by rw [hs]; exact String.asString_toList _
  · rintro rfl
    decide

/-- C10 is partly false: a route whose pattern was never set does not match
every request — its method check still applies.  With methods ["GET"] and a
nil pattern, a POST request yields no match, and calling `Route.ServeHTTP`
on it panics (nil slice sliced as args[1:]). -/
theorem c10_counterexample :
    matchRoute (RouteM.mk ["GET"] none false [.other]) (Request.mk "POST" "/x")
      = none ∧
    routeServeHTTP (RouteM.mk ["GET"] none false [.other]) (Request.mk "POST" "/x")
      = none := by
  exact ⟨by decide, by decide⟩

/-- C10 (amended): calling `Route.ServeHTTP` directly on a request the route
does not match panics, because `Route.apply` unconditionally slices the
capture list as args[1:]; when the route matches, `Route.ServeHTTP` runs the
dispatcher on the captures after index 0; and a route whose pattern was
never set matches every request that passes its method check (every request
when no method is registered), returning the request URI as sole capture. -/
theorem c10_route_serve_http_safety :
    (∀ (r : RouteM) (req : Request), matchRoute r req = none →
      routeServeHTTP r req = none) ∧
    (∀ (r : RouteM) (req : Request) (args : List String),
      matchRoute r req = some args → args ≠ [] →
      routeServeHTTP r req = some (functionDispatcher r.body r.sig (args.drop 1))) ∧
    (∀ (r : RouteM) (req : Request), r.pattern = none →
      methodOk r.methods req.method = true →
      matchRoute r req = some [req.requestURI]) := by
  refine ⟨?_, ?_, ?_⟩
  · intro r req h
    simp [routeServeHTTP, h]
  · intro r req args h hne
    have hno : ¬ args.isEmpty = true := by simpa [List.isEmpty_iff] using hne
    simp [routeServeHTTP, h, hno]
  · intro r req hp hm
    simp [matchRoute, hp, hm]

theorem c10_witness :
    routeServeHTTP (RouteM.mk ["GET"] (some (scanTemplate "/y")) false [.other])
      (Request.mk "GET" "/x") = none ∧
    routeServeHTTP (RouteM.mk [] none false [.other]) (Request.mk "GET" "/x")
      = some (.call []) ∧
    matchRoute (RouteM.mk [] none false [.other]) (Request.mk "GET" "/x")
      = some ["/x"] :=
  ⟨c10_route_serve_http_safety.1 (RouteM.mk ["GET"] (some (scanTemplate "/y")) false
      [.other]) (Request.mk "GET" "/x") (by decide),
    by
      have h := c10_route_serve_http_safety.2.1 (RouteM.mk [] none false [.other])
        (Request.mk "GET" "/x") ["/x"] (by decide) (by decide)
      simpa using h,
    c10_route_serve_http_safety.2.2 (RouteM.mk [] none false [.other])
      (Request.mk "GET" "/x") rfl (by decide)⟩

/-- C5: for every request, the response content type is the request's
Accept header, falling back to the Content-Type header when Accept is empty
(absent); and when the resulting string is not an exact key of the codec
registry, encoding fails with UnsupportedContentType and status 400 is
written with no encoded body. -/
theorem c5_content_negotiation (α : Type) (registry : List (String × Codec))
    (accept contentType : String) (response : Envelope α) :
    (encodeResponse α registry accept contentType response).headerContentType
      = (if accept = "" then contentType else accept) ∧
    ((if accept = "" then contentType else accept) ∉ registry.map Prod.fst →
      encodeResponse α registry accept contentType response
        = { headerContentType := if accept = "" then contentType else accept
            statusWritten := 400
            bodyV := none
            result := .error .unsupportedContentType }) := by
  constructor
  · cases h : encodeSM registry (if accept = "" then contentType else accept) with
    | ok u => simp [encodeResponse, h]
    | error e => simp [encodeResponse, h]
  · intro h
    have hl : registry.lookup (if accept = "" then contentType else accept) = none := by
      rw [List.lookup_eq_none_iff]
      intro p hp
      simp only [bne_iff_ne, ne_eq]
      intro he
      exact h (he ▸ List.mem_map_of_mem Prod.fst hp)
    simp [encodeResponse, encodeSM, hl]

theorem c5_witness :
    (encodeResponse Unit builtinSerializers "application/xml" "application/json"
        (Envelope.mk 200 none none)).headerContentType
      = (if ("application/xml" : String) = "" then "application/json"
          else "application/xml") ∧
    ((if ("application/xml" : String) = "" then "application/json"
        else "application/xml") ∉ builtinSerializers.map Prod.fst) ∧
    encodeResponse Unit builtinSerializers "application/xml" "application/json"
        (Envelope.mk 200 none none)
      = { headerContentType := if ("application/xml" : String) = ""
            then "application/json" else "application/xml"
          statusWritten := 400
          bodyV := none
          result := .error .unsupportedContentType } :=
  ⟨(c5_content_negotiation Unit builtinSerializers "application/xml"
      "application/json" (Envelope.mk 200 none none)).1,
    by decide,
    (c5_content_negotiation Unit builtinSerializers "application/xml"
      "application/json" (Envelope.mk 200 none none)).2 (by decide)⟩

/-- C6: every encoded response body is the fixed envelope
(status, error, data): `Respond` builds it with error nil exactly when the
supplied error string is empty and data exactly as supplied; the failure
helper carries no data, the success helpers carry no error (and
`RespondWithData` status 200); and whatever codec `EncodeResponse` selects,
the body it encodes is that same envelope value. -/
theorem c6_envelope_shape (α : Type) :
    (∀ (status : Nat) (error : String) (data : Option α),
      (respond α status error data).bodyV.S = status ∧
      (respond α status error data).bodyV.E
        = (if error = "" then none else some error) ∧
      (respond α status error data).bodyV.D = data) ∧
    (∀ (error : String) (status : Nat),
      (respondWithErrorMessage α error status).bodyV.E
        = (if error = "" then none else some error) ∧
      (respondWithErrorMessage α error status).bodyV.D = none) ∧
    (∀ status : Nat, (respondWithStatus α status).bodyV.E = none ∧
      (respondWithStatus α status).bodyV.D = none) ∧
    (∀ v : α, (respondWithData α v).bodyV.E = none ∧
      (respondWithData α v).bodyV.D = some v ∧
      (respondWithData α v).bodyV.S = 200) ∧
    (∀ (registry : List (String × Codec)) (accept ct : String) (env : Envelope α),
      (encodeResponse α registry accept ct env).bodyV = none ∨
      (encodeResponse α registry accept ct env).bodyV = some env) := by
  refine ⟨fun status error data => ⟨rfl, rfl, rfl⟩,
    fun error status => ⟨rfl, rfl⟩,
    fun status => ⟨rfl, rfl⟩,
    fun v => ⟨rfl, rfl, rfl⟩,
    fun registry accept ct env => ?_⟩
  cases h : encodeSM registry (if accept = "" then ct else accept) with
  | ok u => right; simp [encodeResponse, h]
  | error e => left; simp [encodeResponse, h]

end Webservice
